import Mathlib

/-!
Verification of the RagServer ingestion and vector-retrieval core
(`ragbackend`): a shallow embedding, in Lean, of the validators
(`ragbackend/utils/validators.py`), the vector-store operations
(`ragbackend/database/vectors.py`), collection creation
(`ragbackend/database/collections.py`), the document processor
(`ragbackend/services/document_processor.py`) and the search API handler
(`ragbackend/api/documents.py`), together with theorems about the
specified properties.

Modelling conventions:
* Embedding vectors are `List ℚ` (exact stand-ins for the float lists the
  Python code passes through untouched; the code performs no float
  arithmetic on them).
* The PostgreSQL state is a `Store`: an association list from table name
  to `Table` (a vector dimension and a list of rows).  Timestamps are
  omitted (no claim concerns them).
* External failures (network faults, storage faults, provider errors) are
  oracle parameters (`Bool` fault flags / `Option` results).
* `asyncpg` guarantees that `executemany` is atomic (all statements take
  effect or none); the model reflects this: a failing batch leaves the
  store unchanged.
* The pgvector cosine-distance operator `<=>` is external to the code;
  search is parametrised by the distance function `dist` it induces for
  the fixed query vector, and the genuine cosine distance is defined
  separately over `ℝ` for the score-range analysis.
-/

namespace RagServer

/-! ### Python `uuid.UUID` parsing and `validators.py`

`validate_uuid` follows CPython `uuid.UUID.__init__`: remove every
occurrence of `urn:` and then of `uuid:`, strip leading/trailing braces,
remove hyphens, require exactly 32 hexadecimal digits, and read the value
in base 16.  (CPython `int(s, 16)` also tolerates a handful of exotic
forms such as embedded underscores; those accept strictly more strings
and do not affect the properties proved, since the canonical rendering
depends only on the parsed value.) -/

/-- Digit test used by base-16 `int` parsing: `0-9`, `a-f`, `A-F`
(character comparisons are code-point comparisons; 48-57, 97-102, 65-70
are the code points of those ranges). -/
def pyHexDigit (c : Char) : Bool :=
  (48 ≤ c.toNat && c.toNat ≤ 57) || (97 ≤ c.toNat && c.toNat ≤ 102) ||
    (65 ≤ c.toNat && c.toNat ≤ 70)

/-- Value of one base-16 digit. -/
def hexValNat (c : Char) : ℕ :=
  if 48 ≤ c.toNat && c.toNat ≤ 57 then c.toNat - 48
  else if 97 ≤ c.toNat && c.toNat ≤ 102 then c.toNat - 97 + 10
  else if 65 ≤ c.toNat && c.toNat ≤ 70 then c.toNat - 65 + 10
  else 0

/-- Recursion core of `removePat`, structurally recursive on a fuel
argument (the input length bounds the recursion depth, since a nonempty
pattern occurrence consumes at least one character). -/
def removePatAux (pat : List Char) : ℕ → List Char → List Char
  | _, [] => []
  | 0, cs => cs
  | fuel + 1, c :: cs =>
    if pat ≠ [] ∧ pat.isPrefixOf (c :: cs) then
      removePatAux pat fuel (List.drop pat.length (c :: cs))
    else
      c :: removePatAux pat fuel cs

/-- Python `s.replace(pat, "")`: remove every (left-to-right,
non-overlapping) occurrence of `pat`. -/
def removePat (pat cs : List Char) : List Char :=
  removePatAux pat cs.length cs

/-- Brace characters stripped by `str.strip` with a `\x7b\x7d` argument. -/
def isBraceChar (c : Char) : Bool := c == '\x7b' || c == '\x7d'

/-- Python `s.strip` over the brace character set: drop braces from both
ends. -/
def pyStripBraces (cs : List Char) : List Char :=
  ((cs.dropWhile isBraceChar).reverse.dropWhile isBraceChar).reverse

/-- The cleaned hexadecimal body extracted by `uuid.UUID.__init__`. -/
def pyUUIDHex (s : String) : List Char :=
  (pyStripBraces (removePat "uuid:".toList (removePat "urn:".toList s.toList))).filter
    (fun c => !(c == '-'))

/-- Embedding of `validators.validate_uuid`: parse the string as a UUID,
returning its 128-bit value, or `none` (the Python function raises
`HTTPException(400)`) when the string is malformed. -/
def validate_uuid (s : String) : Option ℕ :=
  let h := pyUUIDHex s
  if h.length = 32 ∧ h.all pyHexDigit then
    some (h.foldl (fun a c => 16 * a + hexValNat c) 0)
  else
    none

/-- Lowercase hexadecimal digit character of `k % 16` (code points 48-57
for `0-9` and 97-102 for `a-f`, as Python `%x` formatting emits). -/
def hexChar (k : ℕ) : Char :=
  if k % 16 < 10 then Char.ofNat (48 + k % 16) else Char.ofNat (87 + k % 16)

/-- The sixteen lowercase hexadecimal digit characters. -/
def hexCharsLower : List Char := (List.range 16).map hexChar

/-- The 32 hexadecimal digits of a UUID value, most significant first
(Python formats the value as 32 zero-padded lowercase hex digits). -/
def uuidHex32 (n : ℕ) : List Char :=
  (List.range 32).map (fun i => hexChar (n / 16 ^ (31 - i)))

/-- Canonical `str(uuid_obj)` rendering: 8-4-4-4-12 lowercase hex groups
joined by hyphens. -/
def uuidCanonical (n : ℕ) : List Char :=
  let h := uuidHex32 n
  h.take 8 ++ '-' :: (h.drop 8).take 4 ++ '-' :: (h.drop 12).take 4 ++
    '-' :: (h.drop 16).take 4 ++ '-' :: h.drop 20

/-- Canonical UUID string of a value, as produced by Python `str(uuid_obj)`. -/
def uuidStr (n : ℕ) : String := ⟨uuidCanonical n⟩

/-- Characters of the derived vector-table name:
`collection_` + canonical UUID with hyphens replaced by underscores + `_vectors`. -/
def tableNameChars (n : ℕ) : List Char :=
  "collection_".toList ++
    (uuidCanonical n).map (fun c => if c == '-' then '_' else c) ++
    "_vectors".toList

/-- The vector-table name derived from a collection UUID value. -/
def tableNameOf (n : ℕ) : String := ⟨tableNameChars n⟩

/-- Character class of the allow-list regex body `[a-f0-9_]` (code-point
ranges 97-102 for `a-f` and 48-57 for `0-9`). -/
def isAllowChar (c : Char) : Bool :=
  (97 ≤ c.toNat && c.toNat ≤ 102) || (48 ≤ c.toNat && c.toNat ≤ 57) || c == '_'

/-- Boolean rendering of the anchored allow-list regex
`collection_[a-f0-9_]+_vectors` from `validators.py`: the string is
`collection_` followed by a nonempty run of `[a-f0-9_]` characters
followed by `_vectors`.  (The anchors force any match to decompose at the
first 11 and last 8 characters, so this check is exactly the regex.) -/
def matchesTablePattern (s : String) : Bool :=
  let cs := s.toList
  decide (19 < cs.length) &&
    (cs.take 11 == "collection_".toList) &&
    (cs.drop (cs.length - 8) == "_vectors".toList) &&
    ((cs.drop 11).take (cs.length - 19)).all isAllowChar

/-- Embedding of `validators.validate_and_sanitize_table_name`: validate
the string as a UUID, build the table name from its canonical rendering,
and re-check it against the allow-list regex; `none` models the raised
`HTTPException(400)`. -/
def validate_and_sanitize_table_name (s : String) : Option String :=
  match validate_uuid s with
  | none => none
  | some n =>
    let t := tableNameOf n
    if matchesTablePattern t then some t else none

/-- The table-name computation every vector-store operation performs:
`validate_uuid(collection_id)` followed by
`validate_and_sanitize_table_name(str(uuid_obj))`. -/
def tableFor (collection_id : String) : Option String :=
  (validate_uuid collection_id).bind (fun n => validate_and_sanitize_table_name (uuidStr n))

/-! ### Vector store state (`database/vectors.py`)

One PostgreSQL table per collection.  A `Table` records the declared
vector dimension (pgvector `vector(dim)` column, which rejects any insert
whose vector length differs) and the stored rows.  Metadata lives in a
`jsonb` column; search compares `metadata ->> key` (text extraction)
against a Python-stringified value, so metadata is modelled as an
association list of string keys to string values. -/

/-- A persisted chunk row (`id`, `file_id`, `content`, `metadata`,
`embedding`; the `created_at` timestamp is omitted). -/
structure StoredChunk where
  id : String
  file_id : String
  content : String
  metadata : List (String × String)
  embedding : List ℚ
deriving DecidableEq, Repr

/-- A per-collection vector table: pgvector column dimension and rows. -/
structure Table where
  dim : ℕ
  rows : List StoredChunk
deriving DecidableEq, Repr

/-- The database: association list from table name to table. -/
abbrev Store := List (String × Table)

/-- Look up a table by name. -/
def getTable (st : Store) (t : String) : Option Table :=
  (st.find? (fun p => p.1 == t)).map (fun p => p.2)

/-- Replace the table stored under a name (no-op when absent). -/
def setTable (st : Store) (t : String) (tbl : Table) : Store :=
  st.map (fun p => if p.1 == t then (t, tbl) else p)

/-- Input to `insert_vectors` (the `VectorDocument` NamedTuple). -/
structure VectorDocument where
  file_id : String
  content : String
  metadata : List (String × String)
  embedding : List ℚ
deriving DecidableEq, Repr

/-- Result of `insert_vectors`: the returned boolean, the database state
afterwards, and (ghost instrumentation) whether a database connection was
used at all. -/
structure InsertOutcome where
  ok : Bool
  store : Store
  dbAccessed : Bool
deriving DecidableEq, Repr

/-- The per-document record preparation loop of `insert_vectors`:
validate each `doc.file_id` as a UUID (the first malformed one raises)
and build the rows handed to `executemany`; row ids come from the
database default generator, modelled by the oracle `mkId`. -/
def buildRecords (mkId : ℕ → String) (i : ℕ) :
    List VectorDocument → Option (List StoredChunk)
  | [] => some []
  | d :: ds =>
    match validate_uuid d.file_id with
    | none => none
    | some fn =>
      (buildRecords mkId (i + 1) ds).map
        (fun rs => ⟨mkId i, uuidStr fn, d.content, d.metadata, d.embedding⟩ :: rs)

/-- Embedding of `insert_vectors`.  An empty batch returns `True` before
any database work.  Otherwise the collection id is validated and the
table name derived; the batch goes to the database in one `executemany`
call, which `asyncpg` executes atomically: it fails as a whole — leaving
the store unchanged — on an injected transport fault (`fault`), on a
missing table, or when any vector's length differs from the pgvector
column dimension; every raised exception is caught and turned into
`False`. -/
def insert_vectors (st : Store) (collection_id : String)
    (docs : List VectorDocument) (mkId : ℕ → String) (fault : Bool) :
    InsertOutcome :=
  if docs.isEmpty then ⟨true, st, false⟩
  else
    match tableFor collection_id with
    | none => ⟨false, st, false⟩
    | some t =>
      match buildRecords mkId 0 docs with
      | none => ⟨false, st, true⟩
      | some recs =>
        match getTable st t with
        | none => ⟨false, st, true⟩
        | some tbl =>
          if fault || docs.any (fun d => !(d.embedding.length == tbl.dim)) then
            ⟨false, st, true⟩
          else
            ⟨true, setTable st t ⟨tbl.dim, tbl.rows ++ recs⟩, true⟩

/-- One search hit (the `SearchResult` NamedTuple). -/
structure SearchResult where
  id : String
  content : String
  metadata : List (String × String)
  score : ℚ
deriving DecidableEq, Repr

/-- Result of `search_vectors` plus ghost instrumentation: whether the
database was reached and whether an exception was caught and silently
converted into the empty list. -/
structure SearchOutcome where
  results : List SearchResult
  dbAccessed : Bool
  errorSwallowed : Bool
deriving DecidableEq, Repr

/-- Text extraction `metadata ->> key`: the stored string value, or SQL
NULL (`none`) when the key is absent. -/
def metaLookup (m : List (String × String)) (k : String) : Option String :=
  (m.find? (fun p => p.1 == k)).map (fun p => p.2)

/-- The generated `WHERE` conjunction: every filter pair must match the
row's metadata under exact string equality (`metadata ->> $k = $v`). -/
def matchesFilter (f : List (String × String)) (c : StoredChunk) : Bool :=
  f.all (fun kv => metaLookup c.metadata kv.1 == some kv.2)

/-- Row order used by `ORDER BY embedding <=> $1`: ascending distance to
the query vector under the distance function `dist` induced by the
pgvector operator. -/
def distLE (dist : List ℚ → ℚ) (a b : StoredChunk) : Prop :=
  dist a.embedding ≤ dist b.embedding

instance (dist : List ℚ → ℚ) : DecidableRel (distLE dist) :=
  fun a b => inferInstanceAs (Decidable (dist a.embedding ≤ dist b.embedding))

instance (dist : List ℚ → ℚ) : IsTotal StoredChunk (distLE dist) :=
  ⟨fun a b => le_total (dist a.embedding) (dist b.embedding)⟩

instance (dist : List ℚ → ℚ) : IsTrans StoredChunk (distLE dist) :=
  ⟨fun _ _ _ hab hbc => le_trans hab hbc⟩

/-- The `SELECT` row projection: id, content, metadata and the score
column `1 - (embedding <=> $1)`. -/
def mkSearchResult (dist : List ℚ → ℚ) (c : StoredChunk) : SearchResult :=
  ⟨c.id, c.content, c.metadata, 1 - dist c.embedding⟩

/-- Embedding of `search_vectors`.  The collection id is validated and
the table name derived; the SQL query filters by the metadata
conjunction, orders by ascending distance to the query vector, limits the
row count, and computes each score as `1 - distance`.  Every exception —
malformed id, missing table, injected query fault, or a negative SQL
`LIMIT` — is caught and silently becomes the empty result list. -/
def search_vectors (st : Store) (collection_id : String)
    (dist : List ℚ → ℚ) (limit : ℤ) (filter : List (String × String))
    (queryFault : Bool) : SearchOutcome :=
  match tableFor collection_id with
  | none => ⟨[], false, true⟩
  | some t =>
    match getTable st t with
    | none => ⟨[], true, true⟩
    | some tbl =>
      if queryFault || decide (limit < 0) then ⟨[], true, true⟩
      else
        let eligible := tbl.rows.filter (matchesFilter filter)
        let sorted := List.insertionSort (distLE dist) eligible
        ⟨(sorted.take limit.toNat).map (mkSearchResult dist), true, false⟩

/-- Result of `delete_vectors_by_file` with ghost database-access flag. -/
structure DeleteOutcome where
  ok : Bool
  store : Store
  dbAccessed : Bool
deriving DecidableEq, Repr

/-- Embedding of `delete_vectors_by_file`: validate both ids, derive the
table name and delete the file's rows (`DELETE ... WHERE file_id = $1`,
comparing at UUID value level); exceptions become `False`. -/
def delete_vectors_by_file (st : Store) (collection_id file_id : String) :
    DeleteOutcome :=
  match validate_uuid collection_id with
  | none => ⟨false, st, false⟩
  | some _ =>
    match validate_uuid file_id with
    | none => ⟨false, st, false⟩
    | some fn =>
      match tableFor collection_id with
      | none => ⟨false, st, false⟩
      | some t =>
        match getTable st t with
        | none => ⟨false, st, true⟩
        | some tbl =>
          ⟨true, setTable st t ⟨tbl.dim, tbl.rows.filter (fun c => !(c.file_id == uuidStr fn))⟩, true⟩

/-- Result of `get_vector_stats` (the `latest_created` timestamp is
omitted) with ghost database-access flag. -/
structure StatsOutcome where
  total : ℕ
  uniqueFiles : ℕ
  dbAccessed : Bool
deriving DecidableEq, Repr

/-- Embedding of `get_vector_stats`: row count and distinct file count;
every exception becomes the all-zero fallback dictionary. -/
def get_vector_stats (st : Store) (collection_id : String) : StatsOutcome :=
  match tableFor collection_id with
  | none => ⟨0, 0, false⟩
  | some t =>
    match getTable st t with
    | none => ⟨0, 0, true⟩
    | some tbl =>
      ⟨tbl.rows.length, (tbl.rows.map (fun c => c.file_id)).dedup.length, true⟩

/-! ### Collections (`database/collections.py`, `services/embedding_service.py`) -/

/-- A collection row. -/
structure Collection where
  id : String
  name : String
  description : String
  embedding_model : String
  embedding_provider : String
deriving DecidableEq, Repr

/-- Result of `create_collection`. -/
structure CreateOutcome where
  collections : List Collection
  store : Store
  ok : Bool
deriving DecidableEq, Repr

/-- Embedding of `create_collection`: insert the collection row (the
database assigns the UUID value `newId`) and create its vector table with
the hardcoded pgvector column `vector(1024)` — the dimension is `1024`
for every provider, and no comparison with the provider's published
dimension is performed.  The table name is built by the same
f-string as the validator's happy path (`tableNameOf`). -/
def create_collection (colls : List Collection) (st : Store) (newId : ℕ)
    (name description embedding_model embedding_provider : String) :
    CreateOutcome :=
  let c : Collection := ⟨uuidStr newId, name, description, embedding_model, embedding_provider⟩
  ⟨colls ++ [c], st ++ [(tableNameOf newId, ⟨1024, []⟩)], true⟩

/-- The fixed vector dimension each embedding-service variant publishes
(`embedding_service.py`): `ollama` 1024, `openai` 1536 for the default
`text-embedding-ada-002` model (1024 otherwise), `siliconflow` 1024; an
unknown provider has none (the factory raises `ValueError`). -/
def providerDimension (provider model : String) : Option ℕ :=
  if provider == "ollama" then some 1024
  else if provider == "openai" then
    some (if model == "text-embedding-ada-002" then 1536 else 1024)
  else if provider == "siliconflow" then some 1024
  else none

/-! ### Document processing (`services/document_processor.py`)

`process_file` drives download → parse → chunk → embed → insert for one
file, updating the file's status.  External effects are oracles: the
downloaded bytes' decoded text (`textContent`), what the langchain
loaders would produce (`loaded`), the text splitter (`splitter`), and the
embedding result (`embedResult`, `none` meaning the provider raised).
The ghost `events` list records, in order, the status writes and the
embed call, so that temporal claims can be stated. -/

/-- A file row (`files` table; timestamps omitted). -/
structure FileRec where
  collection_id : String
  filename : String
  content_type : String
  object_path : String
  status : String
deriving DecidableEq, Repr

/-- The `files` table: association list from file id to row. -/
abbrev FileDB := List (String × FileRec)

/-- Look up a file row by id. -/
def getFile (fs : FileDB) (fid : String) : Option FileRec :=
  (fs.find? (fun p => p.1 == fid)).map (fun p => p.2)

/-- Embedding of `update_file_status`: set the status column. -/
def setStatus (fs : FileDB) (fid status : String) : FileDB :=
  fs.map (fun p => if p.1 == fid then (p.1, { p.2 with status := status }) else p)

/-- Observable steps of one `process_file` run, in execution order. -/
inductive Event where
  | statusSet (fid status : String)
  | embedCalled
  | vectorInsert
  | vectorDelete
deriving DecidableEq, Repr

/-- A parsed text segment (langchain `Document`). -/
structure Document where
  page_content : String
  metadata : List (String × String)
deriving DecidableEq, Repr

/-- The content types `_parse_document` dispatches on. -/
def supportedContentTypes : List String :=
  ["text/plain", "application/pdf",
   "application/vnd.openxmlformats-officedocument.wordprocessingml.document",
   "application/msword", "text/html", "text/markdown"]

/-- Embedding of `_parse_document`: plain text and Markdown are a single
verbatim segment tagged with the source filename; PDF, Word and HTML go
to format-specific loaders (oracle `loaded`); any other content type logs
a warning and returns the empty list, as does any raised extraction error
(oracle `parseFault`). -/
def parse_document (content_type filename : String) (textContent : String)
    (loaded : List Document) (parseFault : Bool) : List Document :=
  if parseFault then []
  else if content_type == "text/plain" then
    [⟨textContent, [("source", filename)]⟩]
  else if content_type == "application/pdf" then loaded
  else if content_type == "application/vnd.openxmlformats-officedocument.wordprocessingml.document"
      || content_type == "application/msword" then loaded
  else if content_type == "text/html" then loaded
  else if content_type == "text/markdown" then
    [⟨textContent, [("source", filename)]⟩]
  else []

/-- Python dict assignment `m[k] = v` on an association list. -/
def setKey (m : List (String × String)) (k v : String) :
    List (String × String) :=
  if m.any (fun p => p.1 == k) then
    m.map (fun p => if p.1 == k then (k, v) else p)
  else m ++ [(k, v)]

/-- The `clean_metadata` dict built for chunk `i`: `chunk_index`,
`filename` and `content_type`, then the chunk's own metadata entries
(values already stringified). -/
def buildMetadata (i : ℕ) (fr : FileRec) (chunkMd : List (String × String)) :
    List (String × String) :=
  chunkMd.foldl (fun acc kv => setKey acc kv.1 kv.2)
    [("chunk_index", toString i), ("filename", fr.filename),
     ("content_type", fr.content_type)]

/-- The `vector_docs` list: one `VectorDocument` per (chunk, embedding)
pair — Python `zip` truncates to the shorter list. -/
def buildVectorDocs (fid : String) (fr : FileRec) (i : ℕ) :
    List (Document × List ℚ) → List VectorDocument
  | [] => []
  | p :: ps =>
    ⟨fid, p.1.page_content, buildMetadata i fr p.1.metadata, p.2⟩ ::
      buildVectorDocs fid fr (i + 1) ps

/-- Result of one `process_file` run: the returned boolean, the file and
vector databases afterwards, and the ghost event trace. -/
structure ProcOutcome where
  ok : Bool
  files : FileDB
  store : Store
  events : List Event
deriving DecidableEq, Repr

/-- Embedding of `DocumentProcessor.process_file`.  Looks up the file and
its collection, unconditionally sets the status to `processing`, then
downloads, parses, chunks, embeds and inserts; every failure path sets
the terminal `failed` status, success sets `completed`.  No existing
chunks are deleted at any point. -/
def process_file (files : FileDB) (colls : List Collection) (st : Store)
    (fid : String) (downloadFault : Bool) (textContent : String)
    (loaded : List Document) (parseFault : Bool)
    (splitter : List Document → List Document) (serviceFault : Bool)
    (embedResult : Option (List (List ℚ))) (mkId : ℕ → String)
    (insertFault : Bool) : ProcOutcome :=
  match getFile files fid with
  | none => ⟨false, files, st, []⟩
  | some fr =>
    match colls.find? (fun c => c.id == fr.collection_id) with
    | none => ⟨false, files, st, []⟩
    | some coll =>
      let fs1 := setStatus files fid "processing"
      let evs1 := [Event.statusSet fid "processing"]
      if downloadFault then
        ⟨false, setStatus fs1 fid "failed", st, evs1 ++ [Event.statusSet fid "failed"]⟩
      else
        let documents := parse_document fr.content_type fr.filename textContent loaded parseFault
        if documents.isEmpty then
          ⟨false, setStatus fs1 fid "failed", st, evs1 ++ [Event.statusSet fid "failed"]⟩
        else
          let chunks := splitter documents
          if serviceFault then
            ⟨false, setStatus fs1 fid "failed", st, evs1 ++ [Event.statusSet fid "failed"]⟩
          else
            let evs2 := evs1 ++ [Event.embedCalled]
            match embedResult with
            | none =>
              ⟨false, setStatus fs1 fid "failed", st, evs2 ++ [Event.statusSet fid "failed"]⟩
            | some embeddings =>
              let vdocs := buildVectorDocs fid fr 0 (chunks.zip embeddings)
              let io := insert_vectors st coll.id vdocs mkId insertFault
              let evs3 := evs2 ++ [Event.vectorInsert]
              if io.ok then
                ⟨true, setStatus fs1 fid "completed", io.store,
                  evs3 ++ [Event.statusSet fid "completed"]⟩
              else
                ⟨false, setStatus fs1 fid "failed", io.store,
                  evs3 ++ [Event.statusSet fid "failed"]⟩

/-! ### Search API handler (`api/documents.py::search_documents`) -/

/-- Python `str.isspace` members stripped by `str.strip()` (space, tab,
newline, carriage return, vertical tab, form feed). -/
def pyIsSpace (c : Char) : Bool :=
  c == ' ' || c == '\t' || c == '\n' || c == '\r' || c == '\x0b' || c == '\x0c'

/-- Python `query.strip()`: whitespace removed from both ends. -/
def pyStrip (s : String) : String :=
  ⟨((s.toList.dropWhile pyIsSpace).reverse.dropWhile pyIsSpace).reverse⟩

/-- The server-side limit computation `min(query.limit or 10, 100)`:
`None` and `0` are falsy in Python and fall back to the default 10. -/
def effectiveLimit (l : Option ℤ) : ℤ :=
  min (match l with
       | none => 10
       | some v => if v == 0 then 10 else v) 100

/-- Embedding of the API route `search_documents`.  `get_collection_by_id`
parses the path id with `UUID(...)` — a malformed id raises and is
mapped to HTTP 500 by the catch-all handler; an unknown collection is
404; a blank query is 400; an embedding-service failure (`embedFault`)
raises and becomes 500; otherwise the `search_vectors` result is returned
as the successful response body. -/
def search_documents (colls : List Collection) (st : Store)
    (collection_id query : String) (limit : Option ℤ)
    (filter : List (String × String)) (dist : List ℚ → ℚ)
    (embedFault queryFault : Bool) : Except ℕ (List SearchResult) :=
  match validate_uuid collection_id with
  | none => .error 500
  | some n =>
    match colls.find? (fun c => c.id == uuidStr n) with
    | none => .error 404
    | some _ =>
      if pyStrip query == "" then .error 400
      else if embedFault then .error 500
      else
        .ok (search_vectors st collection_id dist (effectiveLimit limit)
              filter queryFault).results

/-! ### Cosine distance

The pgvector operator `<=>` computes the cosine distance
`1 - a·b / (‖a‖ ‖b‖)`.  It is external to the repository code; `dist`
parametrises the operations above, and the genuine formula is stated here
over `ℝ` to analyse the score range. -/

/-- Dot product of two real vectors (componentwise, truncating). -/
def dotList (a b : List ℝ) : ℝ := (List.zipWith (fun x y => x * y) a b).sum

/-- Cosine distance between two real vectors, as computed by the pgvector
`<=>` operator. -/
noncomputable def cosineDistance (a b : List ℝ) : ℝ :=
  1 - dotList a b / (Real.sqrt (dotList a a) * Real.sqrt (dotList b b))

/-! ### Lemmas about the UUID canonical form and derived table names -/

lemma length_hexCharsLower : hexCharsLower.length = 16 := by decide

lemma hexChar_mod (k : ℕ) : hexChar k = hexChar (k % 16) := by
  have h : k % 16 % 16 = k % 16 := by omega
  unfold hexChar
  rw [h]

lemma hexChar_mem (k : ℕ) : hexChar k ∈ hexCharsLower := by
  rw [hexChar_mod]
  exact List.mem_map.mpr
    ⟨k % 16, List.mem_range.mpr (Nat.mod_lt _ (by norm_num)), rfl⟩

lemma hexCharsLower_facts :
    ∀ c ∈ hexCharsLower, pyHexDigit c = true ∧ isAllowChar c = true ∧
      (c == '-') = false ∧ c ≠ 'u' ∧ isBraceChar c = false := by decide

lemma length_uuidHex32 (n : ℕ) : (uuidHex32 n).length = 32 := by
  simp [uuidHex32]

lemma mem_uuidHex32 {c : Char} {n : ℕ} (h : c ∈ uuidHex32 n) :
    c ∈ hexCharsLower := by
  rcases List.mem_map.mp h with ⟨i, _, heq⟩
  exact heq ▸ hexChar_mem (n / 16 ^ (31 - i))

lemma removePatAux_eq_self {p₀ : Char} {ps : List Char} :
    ∀ (fuel : ℕ) (cs : List Char), (∀ c ∈ cs, c ≠ p₀) →
      removePatAux (p₀ :: ps) fuel cs = cs := by
  intro fuel
  induction fuel with
  | zero =>
    intro cs _
    cases cs <;> rfl
  | succ fuel ih =>
    intro cs h
    cases cs with
    | nil => rfl
    | cons c cs =>
      rw [removePatAux]
      have hc : ¬ (p₀ :: ps).isPrefixOf (c :: cs) = true := by
        simp only [List.isPrefixOf, Bool.and_eq_true, beq_iff_eq]
        intro hpc
        exact h c (List.mem_cons_self _ _) hpc.1.symm
      rw [if_neg (by simp [hc])]
      rw [ih cs (fun x hx => h x (List.mem_cons_of_mem _ hx))]

lemma removePat_eq_self {p₀ : Char} {ps cs : List Char}
    (h : ∀ c ∈ cs, c ≠ p₀) : removePat (p₀ :: ps) cs = cs :=
  removePatAux_eq_self cs.length cs h

lemma dropWhile_eq_self {p : Char → Bool} {cs : List Char}
    (h : ∀ c ∈ cs, p c = false) : cs.dropWhile p = cs := by
  cases cs with
  | nil => rfl
  | cons c cs => rw [List.dropWhile_cons, h c (List.mem_cons_self _ _)]; simp

lemma filter_canonical (n : ℕ) :
    (uuidCanonical n).filter (fun c => !(c == '-')) = uuidHex32 n := by
  have hseg : ∀ l : List Char, (∀ c ∈ l, c ∈ hexCharsLower) →
      l.filter (fun c => !(c == '-')) = l := by
    intro l hl
    apply List.filter_eq_self.mpr
    intro c hc
    simp [(hexCharsLower_facts c (hl c hc)).2.2.1]
  unfold uuidCanonical
  simp only [List.filter_append, List.filter_cons]
  norm_num
  rw [hseg _ (fun c hc => mem_uuidHex32 (List.take_subset _ _ hc)),
      hseg _ (fun c hc => mem_uuidHex32 (List.drop_subset _ _ (List.take_subset _ _ hc))),
      hseg _ (fun c hc => mem_uuidHex32 (List.drop_subset _ _ (List.take_subset _ _ hc))),
      hseg _ (fun c hc => mem_uuidHex32 (List.drop_subset _ _ (List.take_subset _ _ hc))),
      hseg _ (fun c hc => mem_uuidHex32 (List.drop_subset _ _ hc))]
  have h8 := List.take_append_drop 8 (uuidHex32 n)
  have h12 : (uuidHex32 n).drop 8 =
      ((uuidHex32 n).drop 8).take 4 ++ (uuidHex32 n).drop 12 := by
    have := List.take_append_drop 4 ((uuidHex32 n).drop 8)
    rwa [List.drop_drop] at this
  have h16 : (uuidHex32 n).drop 12 =
      ((uuidHex32 n).drop 12).take 4 ++ (uuidHex32 n).drop 16 := by
    have := List.take_append_drop 4 ((uuidHex32 n).drop 12)
    rwa [List.drop_drop] at this
  have h20 : (uuidHex32 n).drop 16 =
      ((uuidHex32 n).drop 16).take 4 ++ (uuidHex32 n).drop 20 := by
    have := List.take_append_drop 4 ((uuidHex32 n).drop 16)
    rwa [List.drop_drop] at this
  conv_rhs => rw [← h8, h12, h16, h20]

lemma mem_uuidCanonical {c : Char} {n : ℕ} (h : c ∈ uuidCanonical n) :
    c = '-' ∨ c ∈ hexCharsLower := by
  by_cases hc : c = '-'
  · exact Or.inl hc
  · right
    apply mem_uuidHex32 (n := n)
    rw [← filter_canonical n]
    exact List.mem_filter.mpr ⟨h, by simp [hc]⟩

lemma pyUUIDHex_canonical (n : ℕ) : pyUUIDHex (uuidStr n) = uuidHex32 n := by
  have hchars : ∀ c ∈ uuidCanonical n, c ≠ 'u' ∧ isBraceChar c = false := by
    intro c hc
    rcases mem_uuidCanonical hc with h | h
    · subst h; exact ⟨by decide, by decide⟩
    · exact ⟨(hexCharsLower_facts c h).2.2.2.1, (hexCharsLower_facts c h).2.2.2.2⟩
  unfold pyUUIDHex uuidStr
  have hurn : "urn:".toList = 'u' :: ['r', 'n', ':'] := rfl
  have huuid : "uuid:".toList = 'u' :: ['u', 'i', 'd', ':'] := rfl
  have htl : (String.mk (uuidCanonical n)).toList = uuidCanonical n := rfl
  rw [htl, hurn, huuid]
  rw [removePat_eq_self (fun c hc => (hchars c hc).1)]
  rw [removePat_eq_self (fun c hc => (hchars c hc).1)]
  unfold pyStripBraces
  rw [dropWhile_eq_self (fun c hc => (hchars c hc).2)]
  rw [dropWhile_eq_self (fun c hc => (hchars c (List.mem_reverse.mp hc)).2)]
  rw [List.reverse_reverse]
  exact filter_canonical n

lemma hexValNat_lt (c : Char) : hexValNat c < 16 := by
  unfold hexValNat
  split <;> rename_i h₁
  · simp only [Bool.and_eq_true, decide_eq_true_eq] at h₁; omega
  · split <;> rename_i h₂
    · simp only [Bool.and_eq_true, decide_eq_true_eq] at h₂; omega
    · split <;> rename_i h₃
      · simp only [Bool.and_eq_true, decide_eq_true_eq] at h₃; omega
      · norm_num

lemma hexValNat_hexChar (m : ℕ) : hexValNat (hexChar m) = m % 16 := by
  have hlt : m % 16 < 16 := Nat.mod_lt _ (by norm_num)
  have hall : ∀ j < 16, hexValNat (hexChar j) = j := by decide
  rw [hexChar_mod]
  exact hall _ hlt

lemma foldl_hexDigits (k : ℕ) :
    ∀ n a : ℕ, n < 16 ^ k →
      ((List.range k).map (fun i => hexChar (n / 16 ^ (k - 1 - i)))).foldl
        (fun a c => 16 * a + hexValNat c) a = a * 16 ^ k + n := by
  induction k with
  | zero =>
    intro n a hn
    interval_cases n
    simp
  | succ k ih =>
    intro n a hn
    rw [List.range_succ, List.map_append, List.foldl_append]
    have hmap : (List.range k).map (fun i => hexChar (n / 16 ^ (k + 1 - 1 - i))) =
        (List.range k).map (fun i => hexChar (n / 16 / 16 ^ (k - 1 - i))) := by
      apply List.map_congr_left
      intro i hi
      have hik : i < k := List.mem_range.mp hi
      have hexp : (16 : ℕ) ^ (k + 1 - 1 - i) = 16 ^ (k - 1 - i) * 16 := by
        have h1 : k + 1 - 1 - i = (k - 1 - i) + 1 := by omega
        rw [h1, pow_succ]
      rw [hexp, Nat.mul_comm (16 ^ (k - 1 - i)) 16, ← Nat.div_div_eq_div_mul]
    rw [hmap, ih (n / 16) a
      (Nat.div_lt_of_lt_mul (by rw [Nat.mul_comm, ← pow_succ]; exact hn))]
    simp only [List.map_cons, List.map_nil, List.foldl_cons, List.foldl_nil,
      Nat.add_sub_cancel, Nat.sub_self, pow_zero, Nat.div_one]
    rw [hexValNat_hexChar n]
    have hdm := Nat.div_add_mod n 16
    have hpow : (16 : ℕ) ^ (k + 1) = 16 ^ k * 16 := pow_succ 16 k
    set B := (16 : ℕ) ^ k
    set d := n / 16
    set m := n % 16
    have : 16 * (a * B + d) + m = a * (B * 16) + n := by
      have hab : a * (B * 16) = (a * B) * 16 := by ring
      rw [hab]
      omega
    rw [this, ← hpow]

lemma foldl_hex_lt :
    ∀ (l : List Char) (a : ℕ),
      l.foldl (fun a c => 16 * a + hexValNat c) a < (a + 1) * 16 ^ l.length := by
  intro l
  induction l with
  | nil => intro a; simp
  | cons c cs ih =>
    intro a
    rw [List.foldl_cons, List.length_cons]
    calc (cs.foldl (fun a c => 16 * a + hexValNat c) (16 * a + hexValNat c))
        < (16 * a + hexValNat c + 1) * 16 ^ cs.length := ih _
      _ ≤ ((a + 1) * 16) * 16 ^ cs.length := by
          have : 16 * a + hexValNat c + 1 ≤ (a + 1) * 16 := by
            have := hexValNat_lt c; omega
          exact Nat.mul_le_mul_right _ this
      _ = (a + 1) * 16 ^ (cs.length + 1) := by rw [pow_succ]; ring

lemma validate_uuid_lt {s : String} {n : ℕ} (h : validate_uuid s = some n) :
    n < 16 ^ 32 := by
  simp only [validate_uuid] at h
  split at h
  · rename_i hcond
    have hlen := hcond.1
    have := foldl_hex_lt (pyUUIDHex s) 0
    rw [hlen] at this
    simp only [Option.some.injEq] at h
    omega
  · exact absurd h (by simp)

lemma validate_uuid_uuidStr (n : ℕ) (hn : n < 16 ^ 32) :
    validate_uuid (uuidStr n) = some n := by
  unfold validate_uuid
  rw [pyUUIDHex_canonical]
  have hall : (uuidHex32 n).all pyHexDigit = true := by
    rw [List.all_eq_true]
    intro c hc
    exact (hexCharsLower_facts c (mem_uuidHex32 hc)).1
  rw [if_pos ⟨length_uuidHex32 n, hall⟩]
  congr 1
  have hshape : uuidHex32 n =
      (List.range 32).map (fun i => hexChar (n / 16 ^ (32 - 1 - i))) := rfl
  rw [hshape, foldl_hexDigits 32 n 0 hn]
  omega

lemma length_uuidCanonical (n : ℕ) : (uuidCanonical n).length = 36 := by
  unfold uuidCanonical
  simp [List.length_take, List.length_drop, length_uuidHex32]

lemma matchesTablePattern_tableNameOf (n : ℕ) :
    matchesTablePattern (tableNameOf n) = true := by
  have hmidlen : ((uuidCanonical n).map (fun c => if c == '-' then '_' else c)).length = 36 := by
    rw [List.length_map]; exact length_uuidCanonical n
  unfold matchesTablePattern tableNameOf tableNameChars
  set mid := (uuidCanonical n).map (fun c => if c == '-' then '_' else c) with hmid
  have htl : (String.mk ("collection_".toList ++ mid ++ "_vectors".toList)).toList =
      "collection_".toList ++ mid ++ "_vectors".toList := rfl
  rw [htl]
  have hlen : ("collection_".toList ++ mid ++ "_vectors".toList).length = 55 := by
    simp only [List.length_append, hmidlen]
    decide
  simp only [hlen]
  rw [Bool.and_eq_true, Bool.and_eq_true, Bool.and_eq_true]
  refine ⟨⟨⟨by decide, ?_⟩, ?_⟩, ?_⟩
  · rw [List.append_assoc, beq_iff_eq, List.take_left']
    decide
  · rw [beq_iff_eq]
    have h47 : ("collection_".toList ++ mid).length = 47 := by
      simp only [List.length_append, hmidlen]
      decide
    have h558 : (55 : ℕ) - 8 = 47 := by norm_num
    rw [h558, ← h47, List.drop_left]
  · have hdrop : ("collection_".toList ++ mid ++ "_vectors".toList).drop 11 =
        mid ++ "_vectors".toList := by
      rw [List.append_assoc, List.drop_left']
      decide
    rw [hdrop]
    have : (55 : ℕ) - 19 = 36 := by norm_num
    rw [this, List.take_left' hmidlen, List.all_eq_true]
    intro c hc
    rcases List.mem_map.mp hc with ⟨c', hc', rfl⟩
    rcases mem_uuidCanonical hc' with h | h
    · subst h; decide
    · rw [(hexCharsLower_facts c' h).2.2.1]
      exact (hexCharsLower_facts c' h).2.1

lemma tableFor_eq_vast {cid : String} {n : ℕ} (h : validate_uuid cid = some n) :
    tableFor cid = validate_and_sanitize_table_name (uuidStr n) := by
  unfold tableFor
  rw [h]
  exact Option.some_bind' n _

lemma vast_eq_if {s : String} {n : ℕ} (h : validate_uuid s = some n) :
    validate_and_sanitize_table_name s =
      if matchesTablePattern (tableNameOf n) = true then some (tableNameOf n)
      else none := by
  unfold validate_and_sanitize_table_name
  rw [h]

lemma tableFor_valid {cid : String} {n : ℕ} (h : validate_uuid cid = some n) :
    tableFor cid = some (tableNameOf n) := by
  have h2 : validate_uuid (uuidStr n) = some n :=
    validate_uuid_uuidStr n (validate_uuid_lt h)
  rw [tableFor_eq_vast h, vast_eq_if h2,
    if_pos (matchesTablePattern_tableNameOf n)]

lemma tableFor_none {cid : String} (h : validate_uuid cid = none) :
    tableFor cid = none := by
  unfold tableFor
  rw [h]
  rfl

lemma tableFor_some_inv {cid t : String} (h : tableFor cid = some t) :
    ∃ n, validate_uuid cid = some n ∧ t = tableNameOf n := by
  cases hv : validate_uuid cid with
  | none => rw [tableFor_none hv] at h; exact absurd h (by simp)
  | some n =>
    rw [tableFor_valid hv] at h
    simp only [Option.some.injEq] at h
    exact ⟨n, rfl, h.symm⟩

/-! ### Lemmas about the store and file tables -/

lemma getTable_cons (p : String × Table) (st : Store) (t : String) :
    getTable (p :: st) t =
      if (p.1 == t) = true then some p.2 else getTable st t := by
  unfold getTable
  rw [List.find?_cons]
  cases hpt : (p.1 == t) with
  | true => simp [hpt]
  | false => simp [hpt]

lemma setTable_cons_pos {p : String × Table} {t : String} (st : Store)
    (tbl : Table) (h : (p.1 == t) = true) :
    setTable (p :: st) t tbl = (t, tbl) :: setTable st t tbl := by
  have hp : p.1 = t := by simpa using h
  simp [setTable, hp]

lemma setTable_cons_neg {p : String × Table} {t : String} (st : Store)
    (tbl : Table) (h : (p.1 == t) = false) :
    setTable (p :: st) t tbl = p :: setTable st t tbl := by
  have hp : ¬ p.1 = t := by simpa using h
  simp [setTable, hp]

lemma getTable_setTable_self {st : Store} {t : String} {tbl₀ : Table}
    (tbl : Table) (h : getTable st t = some tbl₀) :
    getTable (setTable st t tbl) t = some tbl := by
  induction st with
  | nil => simp [getTable] at h
  | cons p st ih =>
    rw [getTable_cons] at h
    by_cases hpt : (p.1 == t) = true
    · rw [setTable_cons_pos st tbl hpt, getTable_cons]
      simp
    · rw [if_neg hpt] at h
      rw [setTable_cons_neg st tbl (by simpa using hpt), getTable_cons, if_neg hpt]
      exact ih h

lemma getTable_setTable_ne {t t' : String} (st : Store) (tbl : Table)
    (h : t' ≠ t) : getTable (setTable st t tbl) t' = getTable st t' := by
  induction st with
  | nil => rfl
  | cons p st ih =>
    by_cases hpt : (p.1 == t) = true
    · have hp1 : p.1 = t := by simpa using hpt
      have htt' : ¬ ((t, tbl).1 == t') = true := by simp [Ne.symm h]
      have hpt' : ¬ (p.1 == t') = true := by simp [hp1, Ne.symm h]
      rw [setTable_cons_pos st tbl hpt, getTable_cons, getTable_cons,
        if_neg htt', if_neg hpt']
      exact ih
    · rw [setTable_cons_neg st tbl (by simpa using hpt), getTable_cons, getTable_cons]
      by_cases hpt' : (p.1 == t') = true
      · rw [if_pos hpt', if_pos hpt']
      · rw [if_neg hpt', if_neg hpt']
        exact ih

lemma getTable_mem {st : Store} {t : String} {tbl : Table}
    (h : getTable st t = some tbl) : ∃ k, (k, tbl) ∈ st := by
  unfold getTable at h
  cases hf : st.find? (fun p => p.1 == t) with
  | none => rw [hf] at h; simp at h
  | some p =>
    rw [hf] at h
    simp only [Option.map_some', Option.some.injEq] at h
    have hm : p ∈ st := List.mem_of_find?_eq_some hf
    exact ⟨p.1, by rw [← h]; exact hm⟩

lemma mem_setTable {st : Store} {t : String} {tbl : Table} {p : String × Table}
    (h : p ∈ setTable st t tbl) : p = (t, tbl) ∨ p ∈ st := by
  rcases List.mem_map.mp h with ⟨q, hq, heq⟩
  by_cases hqt : (q.1 == t) = true
  · left
    rw [← heq, if_pos hqt]
  · right
    rw [← heq, if_neg hqt]
    exact hq

lemma buildRecords_length {mkId : ℕ → String} :
    ∀ {docs : List VectorDocument} {i : ℕ} {rs : List StoredChunk},
      buildRecords mkId i docs = some rs → rs.length = docs.length := by
  intro docs
  induction docs with
  | nil =>
    intro i rs h
    simp only [buildRecords, Option.some.injEq] at h
    subst h
    rfl
  | cons d ds ih =>
    intro i rs h
    unfold buildRecords at h
    cases hv : validate_uuid d.file_id with
    | none => rw [hv] at h; simp at h
    | some fn =>
      rw [hv] at h
      cases hb : buildRecords mkId (i + 1) ds with
      | none => rw [hb] at h; simp at h
      | some rs' =>
        rw [hb] at h
        have h' : (⟨mkId i, uuidStr fn, d.content, d.metadata, d.embedding⟩ : StoredChunk) :: rs' = rs := by
          simpa using h
        rw [← h', List.length_cons, List.length_cons, ih hb]

lemma buildRecords_mem {mkId : ℕ → String} :
    ∀ {docs : List VectorDocument} {i : ℕ} {rs : List StoredChunk},
      buildRecords mkId i docs = some rs →
      ∀ r ∈ rs, ∃ d ∈ docs, r.content = d.content ∧ r.metadata = d.metadata ∧
        r.embedding = d.embedding := by
  intro docs
  induction docs with
  | nil =>
    intro i rs h
    simp only [buildRecords, Option.some.injEq] at h
    subst h
    intro r hr
    exact absurd hr (List.not_mem_nil r)
  | cons d ds ih =>
    intro i rs h r hr
    unfold buildRecords at h
    cases hv : validate_uuid d.file_id with
    | none => rw [hv] at h; simp at h
    | some fn =>
      rw [hv] at h
      cases hb : buildRecords mkId (i + 1) ds with
      | none => rw [hb] at h; simp at h
      | some rs' =>
        rw [hb] at h
        have h' : (⟨mkId i, uuidStr fn, d.content, d.metadata, d.embedding⟩ : StoredChunk) :: rs' = rs := by
          simpa using h
        rw [← h'] at hr
        rcases List.mem_cons.mp hr with hr | hr
        · exact ⟨d, List.mem_cons_self _ _, by rw [hr]; exact ⟨rfl, rfl, rfl⟩⟩
        · rcases ih hb r hr with ⟨d', hd', hprops⟩
          exact ⟨d', List.mem_cons_of_mem _ hd', hprops⟩

/-- Case analysis of `insert_vectors`: the empty-batch early return, the
failure branches (store untouched), or a successful atomic append. -/
lemma insert_vectors_spec (st : Store) (cid : String)
    (docs : List VectorDocument) (mkId : ℕ → String) (fault : Bool) :
    (docs = [] ∧ insert_vectors st cid docs mkId fault = ⟨true, st, false⟩)
    ∨ ((insert_vectors st cid docs mkId fault).ok = false
        ∧ (insert_vectors st cid docs mkId fault).store = st)
    ∨ (∃ n tbl recs,
        validate_uuid cid = some n
        ∧ getTable st (tableNameOf n) = some tbl
        ∧ buildRecords mkId 0 docs = some recs
        ∧ fault = false
        ∧ (∀ d ∈ docs, d.embedding.length = tbl.dim)
        ∧ insert_vectors st cid docs mkId fault
            = ⟨true, setTable st (tableNameOf n) ⟨tbl.dim, tbl.rows ++ recs⟩, true⟩) := by
  unfold insert_vectors
  cases hemp : docs.isEmpty with
  | true =>
    left
    exact ⟨List.isEmpty_iff.mp hemp, by rw [if_pos rfl]⟩
  | false =>
    rw [if_neg (by simp)]
    cases ht : tableFor cid with
    | none => dsimp only; right; left; exact ⟨rfl, rfl⟩
    | some t =>
      dsimp only
      cases hb : buildRecords mkId 0 docs with
      | none => dsimp only; right; left; exact ⟨rfl, rfl⟩
      | some recs =>
        dsimp only
        cases hg : getTable st t with
        | none => dsimp only; right; left; exact ⟨rfl, rfl⟩
        | some tbl =>
          dsimp only
          cases hcond : (fault || docs.any (fun d => !(d.embedding.length == tbl.dim))) with
          | true =>
            rw [if_pos rfl]
            right; left; exact ⟨rfl, rfl⟩
          | false =>
            rw [if_neg (by simp)]
            right; right
            rcases tableFor_some_inv ht with ⟨n, hv, rfl⟩
            simp only [Bool.or_eq_false_iff, List.any_eq_false] at hcond
            refine ⟨n, tbl, recs, hv, hg, rfl, hcond.1, ?_, rfl⟩
            intro d hd
            have := hcond.2 d hd
            simpa using this

/-! ### Concrete fixtures used by witnesses and counterexamples -/

/-- A store holding the (empty, dimension-1024) vector table of collection
`uuidStr 0`, as `create_collection` provisions it. -/
def fix1024Store : Store := [(tableNameOf 0, ⟨1024, []⟩)]

/-- A document whose embedding has length 2 — not the column dimension. -/
def wrongDimDoc : VectorDocument := ⟨uuidStr 1, "t", [], [1, 0]⟩

/-- A store with a dimension-2 table holding one chunk of file `uuidStr 1`. -/
def fixChunk : StoredChunk := ⟨"c0", uuidStr 1, "hello", [("chunk_index", "0")], [1, 0]⟩

def fixStore : Store := [(tableNameOf 0, ⟨2, [fixChunk]⟩)]

def fixDoc : VectorDocument := ⟨uuidStr 1, "hi", [("chunk_index", "1")], [0, 1]⟩

/-! ### Claim theorems -/

/-- C10: `insert_vectors` called with an empty batch returns success
immediately, without opening a database connection, performing any write,
or changing the store. -/
theorem insert_empty_batch_noop (st : Store) (cid : String)
    (mkId : ℕ → String) (fault : Bool) :
    insert_vectors st cid [] mkId fault = ⟨true, st, false⟩ := rfl

/-- C1: `insert_vectors` is all-or-nothing.  On any failure — including a
malformed vector anywhere in the batch — the store is unchanged and every
subsequent search observes exactly what it observed before; on success
(of a nonempty batch) all N records are appended in one batched
operation. -/
theorem insert_batch_all_or_nothing (st : Store) (cid : String)
    (docs : List VectorDocument) (mkId : ℕ → String) (fault : Bool) :
    ((insert_vectors st cid docs mkId fault).ok = false →
      (insert_vectors st cid docs mkId fault).store = st
      ∧ ∀ dist lim filt qf,
          search_vectors (insert_vectors st cid docs mkId fault).store cid dist lim filt qf
            = search_vectors st cid dist lim filt qf)
    ∧ ((insert_vectors st cid docs mkId fault).ok = true →
        docs = []
        ∨ ∃ n tbl recs,
            validate_uuid cid = some n
            ∧ getTable st (tableNameOf n) = some tbl
            ∧ buildRecords mkId 0 docs = some recs
            ∧ recs.length = docs.length
            ∧ (insert_vectors st cid docs mkId fault).store
                = setTable st (tableNameOf n) ⟨tbl.dim, tbl.rows ++ recs⟩) := by
  rcases insert_vectors_spec st cid docs mkId fault with
    ⟨hd, he⟩ | ⟨hok, hst⟩ | ⟨n, tbl, recs, hv, hg, hb, _, _, he⟩
  · constructor
    · intro h
      rw [he] at h
      simp at h
    · intro _
      left
      exact hd
  · constructor
    · intro _
      exact ⟨hst, fun dist lim filt qf => by rw [hst]⟩
    · intro h
      exact absurd h (by simp [hok])
  · constructor
    · intro h
      rw [he] at h
      simp at h
    · intro _
      right
      exact ⟨n, tbl, recs, hv, hg, hb, buildRecords_length hb, by rw [he]⟩

theorem insert_batch_all_or_nothing_witness :
    ((insert_vectors fix1024Store (uuidStr 0) [wrongDimDoc, fixDoc] (fun _ => "r0") false).ok = false
      ∧ (insert_vectors fix1024Store (uuidStr 0) [wrongDimDoc, fixDoc] (fun _ => "r0") false).store = fix1024Store)
    ∧ ((insert_vectors fixStore (uuidStr 0) [fixDoc] (fun _ => "r0") false).ok = true
      ∧ ([fixDoc] = [] ∨ ∃ n tbl recs,
            validate_uuid (uuidStr 0) = some n
            ∧ getTable fixStore (tableNameOf n) = some tbl
            ∧ buildRecords (fun _ => "r0") 0 [fixDoc] = some recs
            ∧ recs.length = [fixDoc].length
            ∧ (insert_vectors fixStore (uuidStr 0) [fixDoc] (fun _ => "r0") false).store
                = setTable fixStore (tableNameOf n) ⟨tbl.dim, tbl.rows ++ recs⟩)) := by
  constructor
  · have h := (insert_batch_all_or_nothing fix1024Store (uuidStr 0)
      [wrongDimDoc, fixDoc] (fun _ => "r0") false).1 (by decide)
    exact ⟨by decide, h.1⟩
  · have h := (insert_batch_all_or_nothing fixStore (uuidStr 0)
      [fixDoc] (fun _ => "r0") false).2 (by decide)
    exact ⟨by decide, h⟩

/-- C9: collection identifiers are validated as well-formed UUIDs before
being interpolated into any table name; the derived table name always
matches the allow-list pattern `collection_[a-f0-9_]+_vectors`; a
malformed identifier makes insert, search, delete-by-file and stats
reject the input without constructing a table name or touching the
database. -/
theorem collection_id_validation (s : String) :
    (∀ n, validate_uuid s = some n →
        tableFor s = some (tableNameOf n)
        ∧ matchesTablePattern (tableNameOf n) = true)
    ∧ (validate_uuid s = none →
        (∀ (st : Store) (docs : List VectorDocument) (mkId : ℕ → String)
            (fault : Bool), docs ≠ [] →
            insert_vectors st s docs mkId fault = ⟨false, st, false⟩)
        ∧ (∀ (st : Store) (dist : List ℚ → ℚ) (lim : ℤ)
            (filt : List (String × String)) (qf : Bool),
            search_vectors st s dist lim filt qf = ⟨[], false, true⟩)
        ∧ (∀ (st : Store) (fid : String),
            delete_vectors_by_file st s fid = ⟨false, st, false⟩)
        ∧ (∀ st : Store, get_vector_stats st s = ⟨0, 0, false⟩)) := by
  constructor
  · intro n hv
    exact ⟨tableFor_valid hv, matchesTablePattern_tableNameOf n⟩
  · intro hv
    refine ⟨?_, ?_, ?_, ?_⟩
    · intro st docs mkId fault hne
      unfold insert_vectors
      rw [if_neg (by simp [hne]), tableFor_none hv]
    · intro st dist lim filt qf
      unfold search_vectors
      rw [tableFor_none hv]
    · intro st fid
      unfold delete_vectors_by_file
      rw [hv]
    · intro st
      unfold get_vector_stats
      rw [tableFor_none hv]

theorem collection_id_validation_witness :
    (tableFor (uuidStr 0) = some (tableNameOf 0)
      ∧ matchesTablePattern (tableNameOf 0) = true)
    ∧ insert_vectors fixStore "not-a-uuid" [fixDoc] (fun _ => "r0") false
        = ⟨false, fixStore, false⟩ := by
  refine ⟨(collection_id_validation (uuidStr 0)).1 0 (by decide), ?_⟩
  exact ((collection_id_validation "not-a-uuid").2 (by decide)).1
    fixStore [fixDoc] (fun _ => "r0") false (by simp)

/-- Invariant: every stored chunk's embedding length equals its table's
declared pgvector dimension. -/
def storeDimInvariant (st : Store) : Prop :=
  ∀ p ∈ st, ∀ c ∈ p.2.rows, c.embedding.length = p.2.dim

instance (st : Store) : Decidable (storeDimInvariant st) :=
  inferInstanceAs (Decidable (∀ p ∈ st, ∀ c ∈ p.2.rows, c.embedding.length = p.2.dim))

/-- C3 counterexample: no dimension check is performed before insertion.
Creating a collection for the `openai` provider (published dimension
1536) succeeds and provisions a 1024-dimension index without any fatal
error, and inserting a wrong-length vector reaches the database
(`dbAccessed = true`) instead of being rejected by a pre-insertion
check — it only fails because the storage layer rejects the batch. -/
theorem dimension_check_missing_cex :
    (create_collection [] [] 0 "c" "" "text-embedding-ada-002" "openai").ok = true
    ∧ getTable (create_collection [] [] 0 "c" "" "text-embedding-ada-002" "openai").store
        (tableNameOf 0) = some ⟨1024, []⟩
    ∧ providerDimension "openai" "text-embedding-ada-002" = some 1536
    ∧ (1024 : ℕ) ≠ 1536
    ∧ (insert_vectors fix1024Store (uuidStr 0) [wrongDimDoc] (fun _ => "r0") false).ok = false
    ∧ (insert_vectors fix1024Store (uuidStr 0) [wrongDimDoc] (fun _ => "r0") false).dbAccessed = true := by
  refine ⟨rfl, by decide, rfl, by norm_num, by decide, by decide⟩

/-- C3 (amended): the dimension invariant — every persisted chunk's
embedding length equals the owning table's declared dimension — is
preserved by `insert_vectors` (the fixed-dimension column rejects any
batch containing a wrong-length vector, atomically) and by
`create_collection`; but it is enforced by the storage layer, not by a
code-level check of the provider's published dimension. -/
theorem dimension_invariant_storage_enforced
    (st : Store) (cid : String) (docs : List VectorDocument)
    (mkId : ℕ → String) (fault : Bool) (colls : List Collection) (newId : ℕ)
    (nm ds md pv : String) (h : storeDimInvariant st) :
    storeDimInvariant (insert_vectors st cid docs mkId fault).store
    ∧ storeDimInvariant (create_collection colls st newId nm ds md pv).store := by
  constructor
  · rcases insert_vectors_spec st cid docs mkId fault with
      ⟨_, he⟩ | ⟨_, hst⟩ | ⟨n, tbl, recs, hv, hg, hb, _, hdim, he⟩
    · rw [he]
      exact h
    · rw [hst]
      exact h
    · rw [he]
      intro p hp c hc
      rcases mem_setTable hp with rfl | hp'
      · simp only at hc ⊢
        rcases List.mem_append.mp hc with hc | hc
        · rcases getTable_mem hg with ⟨k, hk⟩
          exact h (k, tbl) hk c hc
        · rcases buildRecords_mem hb c hc with ⟨d, hd, _, _, hemb⟩
          rw [hemb]
          exact hdim d hd
      · exact h p hp' c hc
  · intro p hp c hc
    unfold create_collection at hp
    simp only at hp
    rcases List.mem_append.mp hp with hp | hp
    · exact h p hp c hc
    · rcases List.mem_singleton.mp hp with rfl
      simp at hc

theorem dimension_invariant_storage_enforced_witness :
    storeDimInvariant
      (insert_vectors fix1024Store (uuidStr 0) [wrongDimDoc] (fun _ => "r0") false).store := by
  exact (dimension_invariant_storage_enforced fix1024Store (uuidStr 0) [wrongDimDoc]
    (fun _ => "r0") false [] 0 "n" "d" "m" "p" (by decide)).1

/-- Case analysis of `search_vectors`: every exception path yields the
empty, swallowed result; the happy path filters, sorts by ascending
distance, limits and projects. -/
lemma search_vectors_spec (st : Store) (cid : String) (dist : List ℚ → ℚ)
    (lim : ℤ) (filt : List (String × String)) (qf : Bool) :
    ((search_vectors st cid dist lim filt qf).results = []
      ∧ (search_vectors st cid dist lim filt qf).errorSwallowed = true)
    ∨ (∃ n tbl, validate_uuid cid = some n
        ∧ getTable st (tableNameOf n) = some tbl
        ∧ qf = false ∧ 0 ≤ lim
        ∧ search_vectors st cid dist lim filt qf =
            ⟨((List.insertionSort (distLE dist)
                (tbl.rows.filter (matchesFilter filt))).take lim.toNat).map
              (mkSearchResult dist), true, false⟩) := by
  unfold search_vectors
  cases ht : tableFor cid with
  | none => dsimp only; left; exact ⟨rfl, rfl⟩
  | some t =>
    dsimp only
    cases hg : getTable st t with
    | none => dsimp only; left; exact ⟨rfl, rfl⟩
    | some tbl =>
      dsimp only
      cases hcond : (qf || decide (lim < 0)) with
      | true =>
        rw [if_pos rfl]
        left
        exact ⟨rfl, rfl⟩
      | false =>
        rw [if_neg (by simp)]
        right
        rcases tableFor_some_inv ht with ⟨n, hv, rfl⟩
        simp only [Bool.or_eq_false_iff, decide_eq_false_iff_not, not_lt] at hcond
        exact ⟨n, tbl, hv, hg, hcond.1, hcond.2, rfl⟩

lemma search_vectors_swallow (st : Store) (cid : String) (dist : List ℚ → ℚ)
    (lim : ℤ) (filt : List (String × String)) :
    (search_vectors st cid dist lim filt true).results = []
    ∧ (search_vectors st cid dist lim filt true).errorSwallowed = true := by
  rcases search_vectors_spec st cid dist lim filt true with h | ⟨_, _, _, _, hqf, _, _⟩
  · exact h
  · exact absurd hqf (by simp)

lemma search_vectors_results_length (st : Store) (cid : String)
    (dist : List ℚ → ℚ) (lim : ℤ) (filt : List (String × String)) (qf : Bool) :
    (search_vectors st cid dist lim filt qf).results.length ≤ lim.toNat := by
  rcases search_vectors_spec st cid dist lim filt qf with ⟨h, _⟩ | ⟨_, _, _, _, _, _, h⟩
  · rw [h]
    exact Nat.zero_le _
  · rw [h]
    simp only [List.length_map]
    exact (List.length_take_le _ _)

/-- C5 (amended): every search score equals `1 - distance` for the source
row's stored embedding (with `dist` the distance function the pgvector
`<=>` operator induces for the query), results are ordered descending by
score (ascending by distance), and — since cosine distance ranges over
`[0, 2]`, not `[0, 1]` — scores range over `[-1, 1]`, not `[0, 1]`. -/
theorem search_scores_ordered (st : Store) (cid : String)
    (dist : List ℚ → ℚ) (lim : ℤ) (filt : List (String × String)) (qf : Bool) :
    (search_vectors st cid dist lim filt qf).results.Pairwise
      (fun a b => b.score ≤ a.score)
    ∧ (∀ r ∈ (search_vectors st cid dist lim filt qf).results,
        ∃ n tbl c, validate_uuid cid = some n
          ∧ getTable st (tableNameOf n) = some tbl
          ∧ c ∈ tbl.rows
          ∧ r = mkSearchResult dist c)
    ∧ ((∀ e : List ℚ, 0 ≤ dist e ∧ dist e ≤ 2) →
        ∀ r ∈ (search_vectors st cid dist lim filt qf).results,
          -1 ≤ r.score ∧ r.score ≤ 1) := by
  rcases search_vectors_spec st cid dist lim filt qf with
    ⟨hres, _⟩ | ⟨n, tbl, hv, hg, _, _, heq⟩
  · rw [hres]
    exact ⟨List.Pairwise.nil, fun r hr => absurd hr (List.not_mem_nil r),
      fun _ r hr => absurd hr (List.not_mem_nil r)⟩
  · have hmem : ∀ r ∈ (search_vectors st cid dist lim filt qf).results,
        ∃ c, c ∈ tbl.rows ∧ r = mkSearchResult dist c := by
      intro r hr
      rw [heq] at hr
      rcases List.mem_map.mp hr with ⟨c, hc, rfl⟩
      have hc2 : c ∈ List.insertionSort (distLE dist)
          (tbl.rows.filter (matchesFilter filt)) := List.take_subset _ _ hc
      have hc3 : c ∈ tbl.rows.filter (matchesFilter filt) :=
        (List.mem_insertionSort _).mp hc2
      exact ⟨c, (List.mem_filter.mp hc3).1, rfl⟩
    refine ⟨?_, ?_, ?_⟩
    · rw [heq]
      have hsorted : (List.insertionSort (distLE dist)
          (tbl.rows.filter (matchesFilter filt))).Pairwise (distLE dist) :=
        List.sorted_insertionSort _ _
      have htake := hsorted.sublist (List.take_sublist lim.toNat _)
      rw [List.pairwise_map]
      exact htake.imp (fun h => sub_le_sub_left h 1)
    · intro r hr
      rcases hmem r hr with ⟨c, hc, rfl⟩
      exact ⟨n, tbl, c, hv, hg, hc, rfl⟩
    · intro hrange r hr
      rcases hmem r hr with ⟨c, hc, rfl⟩
      rcases hrange c.embedding with ⟨h0, h2⟩
      constructor
      · show (-1 : ℚ) ≤ 1 - dist c.embedding
        linarith
      · show (1 : ℚ) - dist c.embedding ≤ 1
        linarith

theorem search_scores_ordered_witness :
    (search_vectors fixStore (uuidStr 0) (fun _ => 1) 10 [] false).results.Pairwise
      (fun a b => b.score ≤ a.score)
    ∧ (∀ r ∈ (search_vectors fixStore (uuidStr 0) (fun _ => 1) 10 [] false).results,
        -1 ≤ r.score ∧ r.score ≤ 1) := by
  refine ⟨(search_scores_ordered fixStore (uuidStr 0) (fun _ => 1) 10 [] false).1, ?_⟩
  exact (search_scores_ordered fixStore (uuidStr 0) (fun _ => 1) 10 [] false).2.2
    (fun e => by norm_num)

/-- A stored chunk whose embedding points opposite to the query vector
`[1, 0]`. -/
def negChunk : StoredChunk := ⟨"n0", uuidStr 1, "neg", [], [-1, 0]⟩

def negStore : Store := [(tableNameOf 0, ⟨2, [negChunk]⟩)]

/-- C5 counterexample: the claim "every score lies in [0, 1]" is false.
The cosine distance between the stored embedding `[-1, 0]` and the query
`[1, 0]` is 2 (first conjunct, computed from the genuine formula), and
the search then returns that chunk with score `1 - 2 = -1`, which is not
in `[0, 1]`. -/
theorem search_score_range_cex :
    cosineDistance [-1, 0] [1, 0] = 2
    ∧ (search_vectors negStore (uuidStr 0) (fun _ => 2) 10 [] false).results
        = [mkSearchResult (fun _ => 2) negChunk]
    ∧ (mkSearchResult (fun _ => 2) negChunk).score = -1
    ∧ ¬ ((0 : ℚ) ≤ -1) := by
  refine ⟨?_, rfl, by norm_num [mkSearchResult], by norm_num⟩
  unfold cosineDistance dotList
  norm_num [Real.sqrt_one]

/-- C6: the limit used against the vector store is
`min(query.limit or 10, 100)`, hence at most 100 whatever the caller
sends; consequently every successful search response holds at most 100
results. -/
theorem search_limit_clamped (l : Option ℤ) (colls : List Collection)
    (st : Store) (cid q : String) (filt : List (String × String))
    (dist : List ℚ → ℚ) (ef qf : Bool) :
    effectiveLimit l ≤ 100
    ∧ (∀ rs, search_documents colls st cid q l filt dist ef qf = .ok rs →
        rs.length ≤ 100) := by
  have hle : effectiveLimit l ≤ 100 := min_le_right _ _
  refine ⟨hle, ?_⟩
  intro rs h
  unfold search_documents at h
  cases hv : validate_uuid cid with
  | none => rw [hv] at h; simp at h
  | some n =>
    rw [hv] at h
    dsimp only at h
    cases hfind : colls.find? (fun c => c.id == uuidStr n) with
    | none => rw [hfind] at h; simp at h
    | some c =>
      rw [hfind] at h
      dsimp only at h
      split at h
      · simp at h
      · split at h
        · simp at h
        · simp only [Except.ok.injEq] at h
          rw [← h]
          have := search_vectors_results_length st cid dist (effectiveLimit l) filt qf
          omega

/-- The collection row owning the fixture store. -/
def collFix : Collection := ⟨uuidStr 0, "c", "", "bge-m3", "ollama"⟩

theorem search_limit_clamped_witness :
    effectiveLimit (some 500) ≤ 100
    ∧ search_documents [collFix] fixStore (uuidStr 0) "hi" (some 500) []
        (fun _ => 1) false false = .ok [mkSearchResult (fun _ => 1) fixChunk]
    ∧ [mkSearchResult (fun _ => 1) fixChunk].length ≤ 100 := by
  refine ⟨(search_limit_clamped (some 500) [collFix] fixStore (uuidStr 0) "hi" []
    (fun _ => 1) false false).1, rfl, ?_⟩
  exact (search_limit_clamped (some 500) [collFix] fixStore (uuidStr 0) "hi" []
    (fun _ => 1) false false).2 _ rfl

/-- C7: the metadata filter is a conjunction of exact string-equality
tests per key; an empty filter keeps every row; every returned result
stems from a row whose metadata satisfies the whole filter. -/
theorem search_metadata_filter_conjunction (st : Store) (cid : String)
    (dist : List ℚ → ℚ) (lim : ℤ) (qf : Bool) (filt : List (String × String))
    (n : ℕ) (tbl : Table) (hv : validate_uuid cid = some n)
    (hg : getTable st (tableNameOf n) = some tbl) :
    (∀ c : StoredChunk, matchesFilter filt c = true ↔
        ∀ kv ∈ filt, metaLookup c.metadata kv.1 = some kv.2)
    ∧ tbl.rows.filter (matchesFilter []) = tbl.rows
    ∧ (∀ r ∈ (search_vectors st cid dist lim filt qf).results,
        ∃ c ∈ tbl.rows, matchesFilter filt c = true ∧ r = mkSearchResult dist c) := by
  refine ⟨?_, ?_, ?_⟩
  · intro c
    simp [matchesFilter, List.all_eq_true]
  · exact List.filter_eq_self.mpr (fun c _ => rfl)
  · intro r hr
    rcases search_vectors_spec st cid dist lim filt qf with
      ⟨hres, _⟩ | ⟨n', tbl', hv', hg', _, _, heq⟩
    · rw [hres] at hr
      exact absurd hr (List.not_mem_nil r)
    · rw [hv] at hv'
      have hn : n = n' := by injection hv'
      rw [← hn] at hg'
      rw [hg] at hg'
      have htb : tbl = tbl' := by injection hg'
      rw [heq] at hr
      rcases List.mem_map.mp hr with ⟨c, hc, rfl⟩
      have hc3 : c ∈ tbl'.rows.filter (matchesFilter filt) :=
        (List.mem_insertionSort _).mp (List.take_subset _ _ hc)
      rcases List.mem_filter.mp hc3 with ⟨hrow, hmatch⟩
      exact ⟨c, by rw [htb]; exact hrow, hmatch, rfl⟩

theorem search_metadata_filter_conjunction_witness :
    (matchesFilter [("chunk_index", "0")] fixChunk = true ↔
      ∀ kv ∈ [("chunk_index", "0")], metaLookup fixChunk.metadata kv.1 = some kv.2)
    ∧ (∀ r ∈ (search_vectors fixStore (uuidStr 0) (fun _ => 1) 10
          [("chunk_index", "1")] false).results,
        ∃ c ∈ (⟨2, [fixChunk]⟩ : Table).rows,
          matchesFilter [("chunk_index", "1")] c = true
          ∧ r = mkSearchResult (fun _ => 1) c) := by
  constructor
  · exact (search_metadata_filter_conjunction fixStore (uuidStr 0) (fun _ => 1) 10 false
      [("chunk_index", "0")] 0 ⟨2, [fixChunk]⟩ (by decide) (by decide)).1 fixChunk
  · exact (search_metadata_filter_conjunction fixStore (uuidStr 0) (fun _ => 1) 10 false
      [("chunk_index", "1")] 0 ⟨2, [fixChunk]⟩ (by decide) (by decide)).2.2

/-- C2 counterexample: with the vector-store query failing
(`queryFault = true`), the API search endpoint returns a successful
response with an empty result list — indistinguishable from "no
matches" — while `search_vectors` internally swallowed the error. -/
theorem search_error_swallowed_cex :
    search_documents [collFix] fixStore (uuidStr 0) "hello" (some 10) []
        (fun _ => 1) false true = Except.ok []
    ∧ (search_vectors fixStore (uuidStr 0) (fun _ => 1)
        (effectiveLimit (some 10)) [] true).errorSwallowed = true := ⟨rfl, rfl⟩

/-- C2 (amended): a failed embedding call during search propagates to the
caller as HTTP 500; but a failed vector-store query inside
`search_vectors` is caught and silently converted into the empty result
list, which the API returns as a successful response. -/
theorem search_error_propagation (colls : List Collection) (st : Store)
    (cid q : String) (lim : Option ℤ) (filt : List (String × String))
    (dist : List ℚ → ℚ) (qf : Bool) (n : ℕ) (c : Collection)
    (hv : validate_uuid cid = some n)
    (hfind : colls.find? (fun col => col.id == uuidStr n) = some c)
    (hq : (pyStrip q == "") = false) :
    search_documents colls st cid q lim filt dist true qf = .error 500
    ∧ (search_vectors st cid dist (effectiveLimit lim) filt true).results = []
    ∧ (search_vectors st cid dist (effectiveLimit lim) filt true).errorSwallowed = true
    ∧ search_documents colls st cid q lim filt dist false true
        = .ok (search_vectors st cid dist (effectiveLimit lim) filt true).results := by
  have hsw := search_vectors_swallow st cid dist (effectiveLimit lim) filt
  refine ⟨?_, hsw.1, hsw.2, ?_⟩
  · unfold search_documents
    rw [hv]
    dsimp only
    rw [hfind]
    dsimp only
    rw [if_neg (by simp [hq]), if_pos rfl]
  · unfold search_documents
    rw [hv]
    dsimp only
    rw [hfind]
    dsimp only
    rw [if_neg (by simp [hq]), if_neg (by simp)]

theorem search_error_propagation_witness :
    search_documents [collFix] fixStore (uuidStr 0) "hello" (some 10) []
        (fun _ => 1) true false = .error 500 := by
  exact (search_error_propagation [collFix] fixStore (uuidStr 0) "hello" (some 10)
    [] (fun _ => 1) false 0 collFix (by decide) (by decide) (by decide)).1

/-! ### File-table lemmas and document-processing theorems -/

lemma getFile_cons (p : String × FileRec) (fs : FileDB) (fid : String) :
    getFile (p :: fs) fid =
      if (p.1 == fid) = true then some p.2 else getFile fs fid := by
  unfold getFile
  rw [List.find?_cons]
  cases hp : (p.1 == fid) with
  | true => simp [hp]
  | false => simp [hp]

lemma setStatus_cons (p : String × FileRec) (fs : FileDB) (fid s : String) :
    setStatus (p :: fs) fid s =
      (if (p.1 == fid) = true then (p.1, { p.2 with status := s }) else p)
        :: setStatus fs fid s := rfl

lemma getFile_setStatus (fs : FileDB) (fid s : String) :
    getFile (setStatus fs fid s) fid =
      (getFile fs fid).map (fun fr => { fr with status := s }) := by
  induction fs with
  | nil => rfl
  | cons p fs ih =>
    rw [setStatus_cons]
    by_cases hp : (p.1 == fid) = true
    · simp [getFile_cons, hp]
    · simp only [Bool.not_eq_true] at hp
      simp [getFile_cons, hp, ih]

lemma parse_document_unsupported {ct : String} (fn tc : String)
    (loaded : List Document) (pf : Bool) (h : ct ∉ supportedContentTypes) :
    parse_document ct fn tc loaded pf = [] := by
  simp only [supportedContentTypes, List.mem_cons, List.not_mem_nil, or_false,
    not_or] at h
  obtain ⟨h1, h2, h3, h4, h5, h6⟩ := h
  unfold parse_document
  cases pf with
  | true => simp
  | false => simp [h1, h2, h3, h4, h5, h6]

lemma insert_vectors_preserves_rows (st : Store) (cid : String)
    (docs : List VectorDocument) (mkId : ℕ → String) (fault : Bool)
    {t : String} {tbl : Table} (h : getTable st t = some tbl)
    {c : StoredChunk} (hc : c ∈ tbl.rows) :
    ∃ tbl', getTable (insert_vectors st cid docs mkId fault).store t = some tbl'
      ∧ c ∈ tbl'.rows := by
  rcases insert_vectors_spec st cid docs mkId fault with
    ⟨_, he⟩ | ⟨_, hst⟩ | ⟨n, tbl₂, recs, hv, hg, _, _, _, he⟩
  · rw [he]
    exact ⟨tbl, h, hc⟩
  · rw [hst]
    exact ⟨tbl, h, hc⟩
  · rw [he]
    by_cases hteq : t = tableNameOf n
    · subst hteq
      rw [h] at hg
      have htb : tbl = tbl₂ := by injection hg
      refine ⟨⟨tbl₂.dim, tbl₂.rows ++ recs⟩, getTable_setTable_self _ h, ?_⟩
      exact List.mem_append_left _ (htb ▸ hc)
    · rw [getTable_setTable_ne st _ hteq]
      exact ⟨tbl, h, hc⟩

/-- C8: a file whose declared content type is unsupported resolves to the
terminal `failed` status without the embedding provider ever being
invoked, and without touching the vector store. -/
theorem unsupported_type_fails_without_embedding
    (files : FileDB) (colls : List Collection) (st : Store) (fid : String)
    (dlf : Bool) (tc : String) (loaded : List Document) (pf : Bool)
    (splitter : List Document → List Document) (svf : Bool)
    (emb : Option (List (List ℚ))) (mkId : ℕ → String) (inf : Bool)
    (fr : FileRec) (coll : Collection)
    (hf : getFile files fid = some fr)
    (hc : colls.find? (fun c => c.id == fr.collection_id) = some coll)
    (hct : fr.content_type ∉ supportedContentTypes) :
    (process_file files colls st fid dlf tc loaded pf splitter svf emb mkId inf).ok = false
    ∧ getFile (process_file files colls st fid dlf tc loaded pf splitter svf emb mkId inf).files fid
        = some { fr with status := "failed" }
    ∧ (process_file files colls st fid dlf tc loaded pf splitter svf emb mkId inf).store = st
    ∧ Event.embedCalled ∉
        (process_file files colls st fid dlf tc loaded pf splitter svf emb mkId inf).events := by
  unfold process_file
  rw [hf]
  dsimp only
  rw [hc]
  dsimp only
  cases dlf with
  | true =>
    rw [if_pos rfl]
    refine ⟨rfl, ?_, rfl, by simp⟩
    rw [getFile_setStatus, getFile_setStatus, hf]
    rfl
  | false =>
    rw [if_neg (by simp), parse_document_unsupported _ _ _ _ hct,
      if_pos (by rfl)]
    refine ⟨rfl, ?_, rfl, by simp⟩
    rw [getFile_setStatus, getFile_setStatus, hf]
    rfl

/-- The file record of an unsupported (zip) upload. -/
def zipFileRec : FileRec := ⟨uuidStr 0, "a.zip", "application/zip", "p", "uploading"⟩

def zipFiles : FileDB := [(uuidStr 1, zipFileRec)]

theorem unsupported_type_fails_without_embedding_witness :
    (process_file zipFiles [collFix] fixStore (uuidStr 1) false "" [] false
        (fun d => d) false none (fun _ => "r") false).ok = false
    ∧ getFile (process_file zipFiles [collFix] fixStore (uuidStr 1) false "" [] false
        (fun d => d) false none (fun _ => "r") false).files (uuidStr 1)
        = some { zipFileRec with status := "failed" }
    ∧ (process_file zipFiles [collFix] fixStore (uuidStr 1) false "" [] false
        (fun d => d) false none (fun _ => "r") false).store = fixStore
    ∧ Event.embedCalled ∉
        (process_file zipFiles [collFix] fixStore (uuidStr 1) false "" [] false
          (fun d => d) false none (fun _ => "r") false).events := by
  exact unsupported_type_fails_without_embedding zipFiles [collFix] fixStore
    (uuidStr 1) false "" [] false (fun d => d) false none (fun _ => "r") false
    zipFileRec collFix (by decide) (by decide) (by decide)

/-- C4 (amended): `process_file` resets the file's status to `processing`
unconditionally — its very first database write, whatever the current
status — and never deletes existing chunks (`delete_vectors_by_file` has
no caller in the pipeline); previously stored chunks survive any run. -/
theorem process_file_resets_status_without_deleting
    (files : FileDB) (colls : List Collection) (st : Store) (fid : String)
    (dlf : Bool) (tc : String) (loaded : List Document) (pf : Bool)
    (splitter : List Document → List Document) (svf : Bool)
    (emb : Option (List (List ℚ))) (mkId : ℕ → String) (inf : Bool)
    (fr : FileRec) (coll : Collection)
    (hf : getFile files fid = some fr)
    (hc : colls.find? (fun c => c.id == fr.collection_id) = some coll) :
    (process_file files colls st fid dlf tc loaded pf splitter svf emb mkId inf).events.head?
        = some (Event.statusSet fid "processing")
    ∧ Event.vectorDelete ∉
        (process_file files colls st fid dlf tc loaded pf splitter svf emb mkId inf).events
    ∧ (∀ t tbl, getTable st t = some tbl → ∀ ch ∈ tbl.rows,
        ∃ tbl', getTable
            (process_file files colls st fid dlf tc loaded pf splitter svf emb mkId inf).store t
          = some tbl' ∧ ch ∈ tbl'.rows) := by
  unfold process_file
  rw [hf]
  dsimp only
  rw [hc]
  dsimp only
  cases dlf with
  | true =>
    rw [if_pos rfl]
    exact ⟨rfl, by simp, fun t tbl hg ch hch => ⟨tbl, hg, hch⟩⟩
  | false =>
    rw [if_neg (by simp)]
    cases hemp : (parse_document fr.content_type fr.filename tc loaded pf).isEmpty with
    | true =>
      rw [if_pos rfl]
      exact ⟨rfl, by simp, fun t tbl hg ch hch => ⟨tbl, hg, hch⟩⟩
    | false =>
      rw [if_neg (by simp)]
      cases svf with
      | true =>
        rw [if_pos rfl]
        exact ⟨rfl, by simp, fun t tbl hg ch hch => ⟨tbl, hg, hch⟩⟩
      | false =>
        rw [if_neg (by simp)]
        cases emb with
        | none =>
          dsimp only
          exact ⟨rfl, by simp, fun t tbl hg ch hch => ⟨tbl, hg, hch⟩⟩
        | some embeddings =>
          dsimp only
          cases hok : (insert_vectors st coll.id
              (buildVectorDocs fid fr 0
                ((splitter (parse_document fr.content_type fr.filename tc loaded pf)).zip
                  embeddings)) mkId inf).ok with
          | true =>
            rw [if_pos rfl]
            exact ⟨rfl, by simp,
              fun t tbl hg ch hch => insert_vectors_preserves_rows st coll.id _ mkId inf hg hch⟩
          | false =>
            rw [if_neg (by simp)]
            exact ⟨rfl, by simp,
              fun t tbl hg ch hch => insert_vectors_preserves_rows st coll.id _ mkId inf hg hch⟩

/-- The file record of an already-completed file. -/
def doneFileRec : FileRec := ⟨uuidStr 0, "a.txt", "text/plain", "p", "completed"⟩

def doneFiles : FileDB := [(uuidStr 1, doneFileRec)]

theorem process_file_resets_status_without_deleting_witness :
    (process_file doneFiles [collFix] fixStore (uuidStr 1) true "" [] false
        (fun d => d) false none (fun _ => "r") false).events.head?
        = some (Event.statusSet (uuidStr 1) "processing")
    ∧ Event.vectorDelete ∉
        (process_file doneFiles [collFix] fixStore (uuidStr 1) true "" [] false
          (fun d => d) false none (fun _ => "r") false).events := by
  have h := process_file_resets_status_without_deleting doneFiles [collFix] fixStore
    (uuidStr 1) true "" [] false (fun d => d) false none (fun _ => "r") false
    doneFileRec collFix (by decide) (by decide)
  exact ⟨h.1, h.2.1⟩

/-- C4 counterexample: on a file whose status is terminal (`completed`),
re-running ingestion immediately sets the status back to `processing`
while the file's previously inserted chunk is still in the index — no
chunk deletion happens — and (the injected download fault) then resolves
to `failed`; the terminal state was left without any prior
`delete_by_file`. -/
theorem process_file_terminal_regression_cex :
    (getFile doneFiles (uuidStr 1)).map (fun fr => fr.status) = some "completed"
    ∧ fixChunk.file_id = uuidStr 1
    ∧ Event.statusSet (uuidStr 1) "processing" ∈
        (process_file doneFiles [collFix] fixStore (uuidStr 1) true "" [] false
          (fun d => d) false none (fun _ => "r") false).events
    ∧ getTable (process_file doneFiles [collFix] fixStore (uuidStr 1) true "" [] false
          (fun d => d) false none (fun _ => "r") false).store (tableNameOf 0)
        = some ⟨2, [fixChunk]⟩
    ∧ (getFile (process_file doneFiles [collFix] fixStore (uuidStr 1) true "" [] false
          (fun d => d) false none (fun _ => "r") false).files (uuidStr 1)).map
        (fun fr => fr.status) = some "failed" := by
  refine ⟨by decide, by decide, by decide, by decide, by decide⟩

end RagServer
